import Mathlib

/-!
Verification of the DWARF header-parsing utilities (pkg/dwarf/parseutil.go).

Byte buffers are modelled as `List Nat` (each entry one octet).  Pure Go
functions become Lean functions; Go operations that can cause a runtime
crash (out-of-range slicing or indexing) are modelled by an `Option`
result, where `none` stands for the crash and `some` for a normal return.
Machine integers are modelled as `Nat`; the only narrowing in the source
(the `uint32`/`uint64` conversions in `WriteUint`) is realised by emitting
exactly 4 or 8 bytes.
-/

namespace Dwarf

/-- Byte order tag, mirroring `binary.LittleEndian` / `binary.BigEndian`. -/
inductive ByteOrder where
  | littleEndian
  | bigEndian
deriving DecidableEq

/-- Value of a little-endian byte sequence (first byte least significant). -/
def natOfBytesLE : List Nat → Nat
  | [] => 0
  | b :: bs => b + 256 * natOfBytesLE bs

/-- The `w` little-endian bytes of `v` (mirrors the truncating
`uint32`/`uint64` conversions: only `v mod 256 ^ w` is kept). -/
def natToBytesLE : Nat → Nat → List Nat
  | 0, _ => []
  | w + 1, v => v % 256 :: natToBytesLE w (v / 256)

/-- Decode a byte sequence in the given byte order, as `encoding/binary` does. -/
def decodeUint (order : ByteOrder) (bs : List Nat) : Nat :=
  match order with
  | .littleEndian => natOfBytesLE bs
  | .bigEndian => natOfBytesLE bs.reverse

/-- Encode `v` on `w` bytes in the given byte order. -/
def encodeUint (order : ByteOrder) (w v : Nat) : List Nat :=
  match order with
  | .littleEndian => natToBytesLE w v
  | .bigEndian => (natToBytesLE w v).reverse

/-- The byte of `data` at index `i` (guarded in the source at every use). -/
def byteAt (data : List Nat) (i : Nat) : Nat := data.getD i 0

/-- The `w`-byte field of `data` starting at `off`, decoded in `order`
(mirrors `order.Uint32(data[off:])` / `order.Uint64(data[off:])`). -/
def uintField (order : ByteOrder) (data : List Nat) (off w : Nat) : Nat :=
  decodeUint order ((data.drop off).take w)

/-- `ReadString` from parseutil.go: read a null-terminated string from a
buffer, returning the string (terminator excluded) and the rest of the
buffer (the position is past the terminator); `none` when the buffer holds
no zero byte (the `bytes.Buffer.ReadString` EOF error path). -/
def readStringAux : List Nat → Option (List Nat × List Nat)
  | [] => none
  | b :: rest =>
    if b = 0 then some ([], rest)
    else
      match readStringAux rest with
      | none => none
      | some (s, r) => some (b :: s, r)

/-- `ReadString` returns the string and the advanced buffer, or the
propagated EOF error. -/
def ReadString (data : List Nat) : Except String (List Nat × List Nat) :=
  match readStringAux data with
  | some (s, r) => Except.ok (s, r)
  | none => Except.error "EOF"

/-- `ReadUintRaw` from parseutil.go: read an integer of `ptrSize` bytes in
the given byte order from the front of the stream.  Errors on an
unsupported width and on a short stream (the `binary.Read` error path). -/
def ReadUintRaw (data : List Nat) (order : ByteOrder) (ptrSize : Nat) :
    Except String Nat :=
  if ptrSize = 2 then
    if data.length < 2 then Except.error "short read"
    else Except.ok (decodeUint order (data.take 2))
  else if ptrSize = 4 then
    if data.length < 4 then Except.error "short read"
    else Except.ok (decodeUint order (data.take 4))
  else if ptrSize = 8 then
    if data.length < 8 then Except.error "short read"
    else Except.ok (decodeUint order (data.take 8))
  else Except.error "pointer size not supported"

/-- `WriteUint` from parseutil.go: write an integer of `ptrSize` bytes
(only widths 4 and 8 are offered; the value is truncated to the width). -/
def WriteUint (order : ByteOrder) (ptrSize : Nat) (data : Nat) :
    Except String (List Nat) :=
  if ptrSize = 4 then Except.ok (encodeUint order 4 data)
  else if ptrSize = 8 then Except.ok (encodeUint order 8 data)
  else Except.error "pointer size not supported"

/-- `WriteUint` followed by `ReadUintRaw` over the bytes just written. -/
def writeReadRoundTrip (order : ByteOrder) (ptrSize v : Nat) :
    Except String Nat :=
  match WriteUint order ptrSize v with
  | Except.error e => Except.error e
  | Except.ok bs => ReadUintRaw bs order ptrSize

/-- Result record of `ReadDwarfLengthVersion`. -/
structure LengthVersion where
  length : Nat
  dwarf64 : Bool
  version : Nat
  byteOrder : ByteOrder
deriving DecidableEq

/-- Offset of the version field: 12 after a 64-bit sentinel, else 4
(`voff` in the source). -/
def voffOf (data : List Nat) : Nat :=
  if uintField .littleEndian data 0 4 = 4294967295 then 12 else 4

/-- The byte-order/version heuristic switch of `ReadDwarfLengthVersion`,
on the two version-field bytes `(x, y)`.  The Go `switch` tests
`x = 0 ∧ y = 0`, then `x = 0`, then `y = 0`, and its `default` arm falls
through to the first case. -/
def dwarfVB (x y : Nat) : Nat × ByteOrder :=
  if x = 0 ∧ y = 0 then (0, .littleEndian)
  else if x = 0 then (y, .bigEndian)
  else if y = 0 then (x, .littleEndian)
  else (0, .littleEndian)

/-- The length decoded by `ReadDwarfLengthVersion` once the byte order is
known: the 8 bytes after the sentinel for 64-bit DWARF, else the leading
4 bytes, in the heuristically determined order. -/
def dwarfLength (data : List Nat) : Nat :=
  if uintField .littleEndian data 0 4 = 4294967295 then
    uintField (dwarfVB (byteAt data (voffOf data)) (byteAt data (voffOf data + 1))).2 data 4 8
  else
    uintField (dwarfVB (byteAt data (voffOf data)) (byteAt data (voffOf data + 1))).2 data 0 4

/-- `ReadDwarfLengthVersion` from parseutil.go: reads a DWARF length field
followed by a version field, returning defaults
`⟨0, false, 0, littleEndian⟩` when fewer than 4 bytes are present or when
the version field is not fully inside the buffer (`voff + 1 ≥ len(data)`). -/
def ReadDwarfLengthVersion (data : List Nat) : LengthVersion :=
  if data.length < 4 then ⟨0, false, 0, .littleEndian⟩
  else if data.length ≤ voffOf data + 1 then ⟨0, false, 0, .littleEndian⟩
  else
    ⟨dwarfLength data,
     decide (uintField .littleEndian data 0 4 = 4294967295),
     (dwarfVB (byteAt data (voffOf data)) (byteAt data (voffOf data + 1))).1,
     (dwarfVB (byteAt data (voffOf data)) (byteAt data (voffOf data + 1))).2⟩

/-- Bytes consumed for the length field of the current unit: 4, plus 8
more after a 64-bit sentinel (the `data = data[4:]` / `data = data[8:]`
advances in `ReadUnitVersions`). -/
def unitPre (data : List Nat) : Nat :=
  if (ReadDwarfLengthVersion data).dwarf64 then 12 else 4

/-- Section-offset width `secoffsz` of the current unit: 8 for 64-bit
DWARF, else 4. -/
def unitSecoffsz (data : List Nat) : Nat :=
  if (ReadDwarfLengthVersion data).dwarf64 then 8 else 4

/-- The DWARF 5 unit-type header-size table (`switch unitType` in
`ReadUnitVersions`); unit types are `compile = 1`, `type = 2`,
`partial = 3`, `skeleton = 4`, `split_compile = 5`, `split_type = 6`.
Versions 2, 3, 4 take `3 + secoffsz` before the table is consulted, and
an unrecognized unit type leaves the Go `headerSize` variable at its zero
value. -/
def headerSizeOf (version unitType secoffsz : Nat) : Nat :=
  if version = 2 ∨ version = 3 ∨ version = 4 then 3 + secoffsz
  else if unitType = 1 ∨ unitType = 3 then 4 + secoffsz
  else if unitType = 4 ∨ unitType = 5 then 4 + secoffsz + 8
  else if unitType = 2 ∨ unitType = 6 then 4 + secoffsz + 8 + secoffsz
  else 0

/-- The header size the scanner uses for the unit at the head of `data`. -/
def unitHeaderSize (data : List Nat) : Nat :=
  headerSizeOf (ReadDwarfLengthVersion data).version
    (byteAt (data.drop (unitPre data)) 2) (unitSecoffsz data)

/-- Go-map insertion: overwrite the value when the key is present,
otherwise append the new binding. -/
def mapInsert (m : List (Nat × Nat)) (k v : Nat) : List (Nat × Nat) :=
  if m.any (fun p => p.1 == k) then
    m.map (fun p => if p.1 = k then (k, v) else p)
  else m ++ [(k, v)]

/-- The `for len(data) > 0` loop of `ReadUnitVersions`.  The `fuel`
argument only forces termination (each iteration consumes at least 4
bytes, so `initial length + 1` is always enough).  `none` models a Go
runtime crash: `data[4:]` with fewer than 4 bytes, `data[8:]` with fewer
than 8 remaining bytes, the unit-type read `data[2]` with fewer than 3
remaining bytes, and the payload skip `data[length:]` with `length`
exceeding the remaining bytes all crash with a bounds violation. -/
def readUnitVersionsLoop : Nat → List Nat → Nat → List (Nat × Nat) →
    Option (List (Nat × Nat))
  | 0, _, _, _ => none
  | fuel + 1, data, off, r =>
    if data.length = 0 then some r
    else if data.length < 4 then none
    else if data.length < unitPre data then none
    else if (ReadDwarfLengthVersion data).version = 2 ∨
        (ReadDwarfLengthVersion data).version = 3 ∨
        (ReadDwarfLengthVersion data).version = 4 then
      if (data.drop (unitPre data)).length < (ReadDwarfLengthVersion data).length then none
      else
        readUnitVersionsLoop fuel
          ((data.drop (unitPre data)).drop (ReadDwarfLengthVersion data).length)
          (off + unitPre data + (ReadDwarfLengthVersion data).length)
          (mapInsert r (off + unitPre data + (3 + unitSecoffsz data))
            (ReadDwarfLengthVersion data).version)
    else if (data.drop (unitPre data)).length < 3 then none
    else if (data.drop (unitPre data)).length < (ReadDwarfLengthVersion data).length then none
    else
      readUnitVersionsLoop fuel
        ((data.drop (unitPre data)).drop (ReadDwarfLengthVersion data).length)
        (off + unitPre data + (ReadDwarfLengthVersion data).length)
        (mapInsert r
          (off + unitPre data +
            headerSizeOf (ReadDwarfLengthVersion data).version
              (byteAt (data.drop (unitPre data)) 2) (unitSecoffsz data))
          (ReadDwarfLengthVersion data).version)

/-- `ReadUnitVersions` from parseutil.go: scan a `.debug_info` slice and
map each unit's DIE-payload offset to its DWARF version; `none` models a
runtime crash of the scan. -/
def ReadUnitVersions (data : List Nat) : Option (List (Nat × Nat)) :=
  readUnitVersionsLoop (data.length + 1) data 0 []

/-! Helper lemmas about `ReadDwarfLengthVersion` past its two guards. -/

theorem rdlv_version (data : List Nat) (h4 : 4 ≤ data.length)
    (hv : voffOf data + 1 < data.length) :
    (ReadDwarfLengthVersion data).version =
      (dwarfVB (byteAt data (voffOf data)) (byteAt data (voffOf data + 1))).1 := by
  unfold ReadDwarfLengthVersion
  rw [if_neg (by omega), if_neg (by omega)]

theorem rdlv_byteOrder (data : List Nat) (h4 : 4 ≤ data.length)
    (hv : voffOf data + 1 < data.length) :
    (ReadDwarfLengthVersion data).byteOrder =
      (dwarfVB (byteAt data (voffOf data)) (byteAt data (voffOf data + 1))).2 := by
  unfold ReadDwarfLengthVersion
  rw [if_neg (by omega), if_neg (by omega)]

theorem rdlv_length (data : List Nat) (h4 : 4 ≤ data.length)
    (hv : voffOf data + 1 < data.length) :
    (ReadDwarfLengthVersion data).length = dwarfLength data := by
  unfold ReadDwarfLengthVersion
  rw [if_neg (by omega), if_neg (by omega)]

theorem rdlv_dwarf64 (data : List Nat) (h4 : 4 ≤ data.length)
    (hv : voffOf data + 1 < data.length) :
    (ReadDwarfLengthVersion data).dwarf64 =
      decide (uintField .littleEndian data 0 4 = 4294967295) := by
  unfold ReadDwarfLengthVersion
  rw [if_neg (by omega), if_neg (by omega)]

theorem unitPre_ge_4 (data : List Nat) : 4 ≤ unitPre data := by
  unfold unitPre; split <;> omega

theorem unitSecoffsz_le_8 (data : List Nat) : unitSecoffsz data ≤ 8 := by
  unfold unitSecoffsz; split <;> omega

theorem headerSizeOf_le_28 (version unitType secoffsz : Nat)
    (h : secoffsz ≤ 8) : headerSizeOf version unitType secoffsz ≤ 28 := by
  unfold headerSizeOf; split_ifs <;> omega

/-! Helper lemmas about `mapInsert` and one loop iteration. -/

theorem mapInsert_mem (m : List (Nat × Nat)) (k v : Nat) (p : Nat × Nat)
    (h : p ∈ mapInsert m k v) : p.1 = k ∨ p ∈ m := by
  unfold mapInsert at h
  split at h
  · rcases List.mem_map.1 h with ⟨q, hq, he⟩
    by_cases hk : q.1 = k
    · left; rw [← he, if_pos hk]
    · right; rw [← he, if_neg hk]; exact hq
  · rcases List.mem_append.1 h with h' | h'
    · right; exact h'
    · left; rw [List.mem_singleton.1 h']

/-- One successful iteration of the scanner loop: when the full length
field is present, the payload length fits in the remaining bytes and (in
the non-2/3/4 branch) the unit-type byte is readable, the loop records
`(offset past the length field + header size, version)` and moves on past
the payload. -/
theorem loop_step_record (fuel off : Nat) (r : List (Nat × Nat))
    (data : List Nat) (hpre : unitPre data ≤ data.length)
    (hlen : (ReadDwarfLengthVersion data).length ≤ (data.drop (unitPre data)).length)
    (h3 : ¬((ReadDwarfLengthVersion data).version = 2 ∨
        (ReadDwarfLengthVersion data).version = 3 ∨
        (ReadDwarfLengthVersion data).version = 4) →
      3 ≤ (data.drop (unitPre data)).length) :
    readUnitVersionsLoop (fuel + 1) data off r =
      readUnitVersionsLoop fuel
        ((data.drop (unitPre data)).drop (ReadDwarfLengthVersion data).length)
        (off + unitPre data + (ReadDwarfLengthVersion data).length)
        (mapInsert r (off + unitPre data + unitHeaderSize data)
          (ReadDwarfLengthVersion data).version) := by
  have h4 : 4 ≤ unitPre data := unitPre_ge_4 data
  simp only [readUnitVersionsLoop]
  rw [if_neg (by omega : ¬ data.length = 0), if_neg (by omega : ¬ data.length < 4),
    if_neg (by omega : ¬ data.length < unitPre data)]
  by_cases hv : (ReadDwarfLengthVersion data).version = 2 ∨
      (ReadDwarfLengthVersion data).version = 3 ∨
      (ReadDwarfLengthVersion data).version = 4
  · rw [if_pos hv, if_neg (by omega)]
    unfold unitHeaderSize headerSizeOf
    rw [if_pos hv]
  · rw [if_neg hv, if_neg (by have := h3 hv; omega), if_neg (by omega)]
    rfl

/-- A crashing iteration: in the non-2/3/4 branch with fewer than 3 bytes
remaining after the length field, the unit-type read `data[2]` is out of
range and the scan crashes. -/
theorem loop_step_crash (fuel off : Nat) (r : List (Nat × Nat))
    (data : List Nat) (hpre : unitPre data ≤ data.length)
    (hv : ¬((ReadDwarfLengthVersion data).version = 2 ∨
        (ReadDwarfLengthVersion data).version = 3 ∨
        (ReadDwarfLengthVersion data).version = 4))
    (h3 : (data.drop (unitPre data)).length < 3) :
    readUnitVersionsLoop (fuel + 1) data off r = none := by
  have h4 : 4 ≤ unitPre data := unitPre_ge_4 data
  simp only [readUnitVersionsLoop]
  rw [if_neg (by omega : ¬ data.length = 0), if_neg (by omega : ¬ data.length < 4),
    if_neg (by omega : ¬ data.length < unitPre data), if_neg hv, if_pos h3]

/-- Key-bound invariant of the scanner loop: on a normal return, every
recorded key is at most `absolute offset + remaining bytes + 28`
(28 being the largest possible header size, `4 + 8 + 8 + 8`). -/
theorem loop_keys_bound (fuel : Nat) : ∀ (data : List Nat) (off : Nat)
    (r m : List (Nat × Nat)),
    readUnitVersionsLoop fuel data off r = some m →
    (∀ p ∈ r, p.1 ≤ off + data.length + 28) →
    ∀ p ∈ m, p.1 ≤ off + data.length + 28 := by
  induction fuel with
  | zero =>
    intro data off r m h
    simp only [readUnitVersionsLoop] at h
    exact absurd h (by simp)
  | succ n ih =>
    intro data off r m h hr
    simp only [readUnitVersionsLoop] at h
    split at h
    · rename_i h0
      rw [Option.some_inj] at h
      rw [← h]; exact hr
    · split at h
      · exact absurd h (by simp)
      · split at h
        · exact absurd h (by simp)
        · rename_i h0 hlt4 hltpre
          have hpre : unitPre data ≤ data.length := by omega
          have hdrop : (data.drop (unitPre data)).length = data.length - unitPre data := by
            simp
          split at h
          · -- version 2, 3, 4 branch
            split at h
            · exact absurd h (by simp)
            · rename_i hv hfit
              have hs : 3 + unitSecoffsz data ≤ 28 := by
                have := unitSecoffsz_le_8 data; omega
              have hrec := ih _ _ _ _ h ?_
              · intro p hp
                have := hrec p hp
                simp only [List.length_drop] at this ⊢
                omega
              · intro p hp
                rcases mapInsert_mem _ _ _ _ hp with hk | hmem
                · simp only [List.length_drop] at hfit ⊢
                  omega
                · have := hr p hmem
                  simp only [List.length_drop] at hfit ⊢
                  omega
          · split at h
            · exact absurd h (by simp)
            · split at h
              · exact absurd h (by simp)
              · rename_i hv h3 hfit
                have hs : headerSizeOf (ReadDwarfLengthVersion data).version
                    (byteAt (data.drop (unitPre data)) 2) (unitSecoffsz data) ≤ 28 :=
                  headerSizeOf_le_28 _ _ _ (unitSecoffsz_le_8 data)
                have hrec := ih _ _ _ _ h ?_
                · intro p hp
                  have := hrec p hp
                  simp only [List.length_drop] at this ⊢
                  omega
                · intro p hp
                  rcases mapInsert_mem _ _ _ _ hp with hk | hmem
                  · simp only [List.length_drop] at hfit ⊢
                    omega
                  · have := hr p hmem
                    simp only [List.length_drop] at hfit ⊢
                    omega

/-! Helper lemmas for the primitive-I/O round trips. -/

theorem natToBytesLE_length (w : Nat) : ∀ v, (natToBytesLE w v).length = w := by
  induction w with
  | zero => intro v; rfl
  | succ n ih => intro v; simp [natToBytesLE, ih]

theorem natOfBytesLE_natToBytesLE (w : Nat) : ∀ v, v < 256 ^ w →
    natOfBytesLE (natToBytesLE w v) = v := by
  induction w with
  | zero =>
    intro v h
    simp only [pow_zero, Nat.lt_one_iff] at h
    simp [natToBytesLE, natOfBytesLE, h]
  | succ n ih =>
    intro v h
    have hv : v / 256 < 256 ^ n := by
      rw [Nat.div_lt_iff_lt_mul (by norm_num)]
      calc v < 256 ^ (n + 1) := h
        _ = 256 ^ n * 256 := by ring
    simp only [natToBytesLE, natOfBytesLE, ih (v / 256) hv]
    omega

theorem decodeUint_encodeUint (o : ByteOrder) (w v : Nat) (h : v < 256 ^ w) :
    decodeUint o (encodeUint o w v) = v := by
  cases o <;>
    simp [decodeUint, encodeUint, List.reverse_reverse, natOfBytesLE_natToBytesLE w v h]

theorem encodeUint_length (o : ByteOrder) (w v : Nat) :
    (encodeUint o w v).length = w := by
  cases o <;> simp [encodeUint, natToBytesLE_length]

theorem readStringAux_terminated : ∀ (s rest : List Nat), (∀ b ∈ s, b ≠ 0) →
    readStringAux (s ++ 0 :: rest) = some (s, rest) := by
  intro s
  induction s with
  | nil => intro rest _; simp [readStringAux]
  | cons b t ih =>
    intro rest hs
    simp only [List.cons_append, readStringAux, List.append_eq]
    rw [if_neg (hs b (List.mem_cons_self b t)),
      ih rest (fun x hx => hs x (List.mem_cons_of_mem b hx))]

theorem readStringAux_unterminated : ∀ (s : List Nat), (∀ b ∈ s, b ≠ 0) →
    readStringAux s = none := by
  intro s
  induction s with
  | nil => intro _; rfl
  | cons b t ih =>
    intro hs
    simp only [readStringAux]
    rw [if_neg (hs b (List.mem_cons_self b t)),
      ih (fun x hx => hs x (List.mem_cons_of_mem b hx))]

/-! Claim theorems. -/

/-- Claim C1, counterexample: on the length-1 input `[0]` the scan does
not terminate cleanly with a partial map — the unguarded `data = data[4:]`
advance is a slice-bounds violation, modelled as `none`. -/
theorem c1_counterexample : ReadUnitVersions [0] = none := by decide

/-- Claim C1, as amended: `ReadUnitVersions` crashes (models as `none`)
rather than terminating cleanly on the short inputs of length 1, 2 and 3
and on a payload-length field that would advance the cursor past the end
of the buffer; the empty input yields the empty map. -/
theorem c1_scan_crashes_on_short_input (b c d : Nat) :
    ReadUnitVersions [] = some [] ∧
    ReadUnitVersions [b] = none ∧
    ReadUnitVersions [b, c] = none ∧
    ReadUnitVersions [b, c, d] = none ∧
    ReadUnitVersions [9, 0, 0, 0, 2, 0] = none :=
  ⟨rfl, rfl, rfl, rfl, by decide⟩

/-- Claim C2: when the two version-field bytes `(x, y)` just after the
length field can be read, `ReadDwarfLengthVersion` decides version and
byte order by: `x = 0 ∧ y ≠ 0` gives version `y`, big-endian;
`y = 0 ∧ x ≠ 0` gives version `x`, little-endian; both zero and both
nonzero give version 0, little-endian. -/
theorem c2_byte_order_heuristic (data : List Nat) (h4 : 4 ≤ data.length)
    (hv : voffOf data + 1 < data.length) :
    (byteAt data (voffOf data) = 0 → byteAt data (voffOf data + 1) ≠ 0 →
      (ReadDwarfLengthVersion data).version = byteAt data (voffOf data + 1) ∧
      (ReadDwarfLengthVersion data).byteOrder = ByteOrder.bigEndian) ∧
    (byteAt data (voffOf data + 1) = 0 → byteAt data (voffOf data) ≠ 0 →
      (ReadDwarfLengthVersion data).version = byteAt data (voffOf data) ∧
      (ReadDwarfLengthVersion data).byteOrder = ByteOrder.littleEndian) ∧
    (byteAt data (voffOf data) = 0 → byteAt data (voffOf data + 1) = 0 →
      (ReadDwarfLengthVersion data).version = 0 ∧
      (ReadDwarfLengthVersion data).byteOrder = ByteOrder.littleEndian) ∧
    (byteAt data (voffOf data) ≠ 0 → byteAt data (voffOf data + 1) ≠ 0 →
      (ReadDwarfLengthVersion data).version = 0 ∧
      (ReadDwarfLengthVersion data).byteOrder = ByteOrder.littleEndian) := by
  rw [rdlv_version data h4 hv, rdlv_byteOrder data h4 hv]
  refine ⟨?_, ?_, ?_, ?_⟩ <;> intro hx hy <;> unfold dwarfVB
  · rw [if_neg (fun h => hy h.2), if_pos hx]
    exact ⟨rfl, rfl⟩
  · rw [if_neg (fun h => hy h.1), if_neg hy, if_pos hx]
    exact ⟨rfl, rfl⟩
  · rw [if_pos ⟨hx, hy⟩]
    exact ⟨rfl, rfl⟩
  · rw [if_neg (fun h => hx h.1), if_neg hx, if_neg hy]
    exact ⟨rfl, rfl⟩

/-- Witness for C2 at a concrete big-endian input: bytes `(0, 4)` after a
non-sentinel length field give version 4, big-endian. -/
theorem c2_witness :
    (ReadDwarfLengthVersion [1, 0, 0, 0, 0, 4]).version =
        byteAt [1, 0, 0, 0, 0, 4] (voffOf [1, 0, 0, 0, 0, 4] + 1) ∧
    (ReadDwarfLengthVersion [1, 0, 0, 0, 0, 4]).byteOrder = ByteOrder.bigEndian :=
  (c2_byte_order_heuristic [1, 0, 0, 0, 0, 4] (by decide) (by decide)).1
    (by decide) (by decide)

/-- Claim C7: `ReadDwarfLengthVersion` returns the defaults
`⟨0, false, 0, littleEndian⟩` when fewer than 4 bytes are present, and
again when the version byte's position plus 1 (`voff + 1`, with `voff` 4
for a 32-bit unit and 12 after a 64-bit sentinel) is at or past the
buffer length. -/
theorem c7_short_defaults (data : List Nat) :
    (data.length < 4 →
      ReadDwarfLengthVersion data = ⟨0, false, 0, ByteOrder.littleEndian⟩) ∧
    (4 ≤ data.length → data.length ≤ voffOf data + 1 →
      ReadDwarfLengthVersion data = ⟨0, false, 0, ByteOrder.littleEndian⟩) := by
  constructor
  · intro h
    unfold ReadDwarfLengthVersion
    rw [if_pos h]
  · intro h4 hv
    unfold ReadDwarfLengthVersion
    rw [if_neg (by omega), if_pos hv]

/-- Witness for C7: a 1-byte input and a 5-byte non-sentinel input (version
byte position 4, `4 + 1 ≥ 5`) both return the defaults. -/
theorem c7_witness :
    ReadDwarfLengthVersion [0] = ⟨0, false, 0, ByteOrder.littleEndian⟩ ∧
    ReadDwarfLengthVersion [1, 2, 3, 4, 5] = ⟨0, false, 0, ByteOrder.littleEndian⟩ :=
  ⟨(c7_short_defaults [0]).1 (by decide),
   (c7_short_defaults [1, 2, 3, 4, 5]).2 (by decide) (by decide)⟩

/-- Claim C3: with `S` the section-offset width (4 for 32-bit, 8 for
64-bit units), a unit with version 2, 3 or 4 gets header size `3 + S`; a
version ≥ 5 unit gets `4 + S` for unit types compile (1) and partial (3),
`4 + S + 8` for skeleton (4) and split_compile (5), and `4 + S + 8 + S`
for type (2) and split_type (6); and the scanner records
`(absolute offset just past the length field + header size, version)`. -/
theorem c3_header_size_table (fuel off : Nat) (r : List (Nat × Nat))
    (data : List Nat) (hpre : unitPre data ≤ data.length)
    (hlen : (ReadDwarfLengthVersion data).length ≤ (data.drop (unitPre data)).length) :
    ((ReadDwarfLengthVersion data).version = 2 ∨
        (ReadDwarfLengthVersion data).version = 3 ∨
        (ReadDwarfLengthVersion data).version = 4 →
      readUnitVersionsLoop (fuel + 1) data off r =
        readUnitVersionsLoop fuel
          ((data.drop (unitPre data)).drop (ReadDwarfLengthVersion data).length)
          (off + unitPre data + (ReadDwarfLengthVersion data).length)
          (mapInsert r (off + unitPre data + (3 + unitSecoffsz data))
            (ReadDwarfLengthVersion data).version)) ∧
    (5 ≤ (ReadDwarfLengthVersion data).version →
      3 ≤ (data.drop (unitPre data)).length →
      (byteAt (data.drop (unitPre data)) 2 = 1 ∨ byteAt (data.drop (unitPre data)) 2 = 3 →
        readUnitVersionsLoop (fuel + 1) data off r =
          readUnitVersionsLoop fuel
            ((data.drop (unitPre data)).drop (ReadDwarfLengthVersion data).length)
            (off + unitPre data + (ReadDwarfLengthVersion data).length)
            (mapInsert r (off + unitPre data + (4 + unitSecoffsz data))
              (ReadDwarfLengthVersion data).version)) ∧
      (byteAt (data.drop (unitPre data)) 2 = 4 ∨ byteAt (data.drop (unitPre data)) 2 = 5 →
        readUnitVersionsLoop (fuel + 1) data off r =
          readUnitVersionsLoop fuel
            ((data.drop (unitPre data)).drop (ReadDwarfLengthVersion data).length)
            (off + unitPre data + (ReadDwarfLengthVersion data).length)
            (mapInsert r (off + unitPre data + (4 + unitSecoffsz data + 8))
              (ReadDwarfLengthVersion data).version)) ∧
      (byteAt (data.drop (unitPre data)) 2 = 2 ∨ byteAt (data.drop (unitPre data)) 2 = 6 →
        readUnitVersionsLoop (fuel + 1) data off r =
          readUnitVersionsLoop fuel
            ((data.drop (unitPre data)).drop (ReadDwarfLengthVersion data).length)
            (off + unitPre data + (ReadDwarfLengthVersion data).length)
            (mapInsert r
              (off + unitPre data + (4 + unitSecoffsz data + 8 + unitSecoffsz data))
              (ReadDwarfLengthVersion data).version))) := by
  constructor
  · intro hv
    have hstep := loop_step_record fuel off r data hpre hlen (fun hc => absurd hv hc)
    rwa [show unitHeaderSize data = 3 + unitSecoffsz data from by
      unfold unitHeaderSize headerSizeOf; rw [if_pos hv]] at hstep
  · intro hv5 h3
    have hnv : ¬((ReadDwarfLengthVersion data).version = 2 ∨
        (ReadDwarfLengthVersion data).version = 3 ∨
        (ReadDwarfLengthVersion data).version = 4) := by omega
    have hstep := loop_step_record fuel off r data hpre hlen (fun _ => h3)
    refine ⟨?_, ?_, ?_⟩ <;> intro hut
    · rwa [show unitHeaderSize data = 4 + unitSecoffsz data from by
        unfold unitHeaderSize headerSizeOf; rw [if_neg hnv, if_pos hut]] at hstep
    · rwa [show unitHeaderSize data = 4 + unitSecoffsz data + 8 from by
        unfold unitHeaderSize headerSizeOf
        rw [if_neg hnv, if_neg (by omega), if_pos hut]] at hstep
    · rwa [show unitHeaderSize data = 4 + unitSecoffsz data + 8 + unitSecoffsz data from by
        unfold unitHeaderSize headerSizeOf
        rw [if_neg hnv, if_neg (by omega), if_neg (by omega), if_pos hut]] at hstep

/-- Witness for C3 at a concrete DWARF 2 unit (`[2,0,0,0,2,0]`): header
size `3 + 4 = 7`, so the pair `(0 + 4 + 7, 2)` is recorded. -/
theorem c3_witness :
    readUnitVersionsLoop 2 [2, 0, 0, 0, 2, 0] 0 [] =
      readUnitVersionsLoop 1 [] 6 (mapInsert [] 11 2) :=
  (c3_header_size_table 1 0 [] [2, 0, 0, 0, 2, 0] (by decide) (by decide)).1
    (by decide)

/-- Claim C4: the returned `dwarf64` flag is set iff the leading 4 bytes
read as the little-endian sentinel `0xFFFFFFFF`; the payload length comes
from the 8 bytes after the sentinel in the deduced byte order for 64-bit
units, else from the leading 4 bytes in that order; and on the
scenario-5 input (sentinel, 64-bit length 11, version `04 00`, filler up
to the payload offset) the scan returns exactly `{23 ↦ 4}`. -/
theorem c4_dwarf64_sentinel (data : List Nat) (h4 : 4 ≤ data.length)
    (hv : voffOf data + 1 < data.length) :
    ((ReadDwarfLengthVersion data).dwarf64 = true ↔
      uintField ByteOrder.littleEndian data 0 4 = 4294967295) ∧
    (ReadDwarfLengthVersion data).length =
      (if uintField ByteOrder.littleEndian data 0 4 = 4294967295 then
        uintField (ReadDwarfLengthVersion data).byteOrder data 4 8
      else uintField (ReadDwarfLengthVersion data).byteOrder data 0 4) ∧
    ReadUnitVersions
        [255, 255, 255, 255, 11, 0, 0, 0, 0, 0, 0, 0, 4, 0, 0, 0, 0, 0, 0, 0, 0, 0, 0] =
      some [(23, 4)] := by
  refine ⟨?_, ?_, by decide⟩
  · rw [rdlv_dwarf64 data h4 hv]
    exact decide_eq_true_iff
  · rw [rdlv_length data h4 hv, rdlv_byteOrder data h4 hv]
    unfold dwarfLength
    rfl

/-- Witness for C4 at a concrete 64-bit unit header. -/
theorem c4_witness :
    (ReadDwarfLengthVersion [255, 255, 255, 255, 11, 0, 0, 0, 0, 0, 0, 0, 4, 0, 0]).dwarf64 = true ↔
      uintField ByteOrder.littleEndian [255, 255, 255, 255, 11, 0, 0, 0, 0, 0, 0, 0, 4, 0, 0] 0 4 =
        4294967295 :=
  (c4_dwarf64_sentinel [255, 255, 255, 255, 11, 0, 0, 0, 0, 0, 0, 0, 4, 0, 0]
    (by decide) (by decide)).1

/-- Claim C5, counterexample: on the unit `[3,0,0,0,5,0,7]` (version 5,
unrecognized unit type 7) the scanner records the entry at key
`4 = off + 0`, not at `off + (4 + S) = 12`, and keeps scanning — neither
of the two behaviours the claim allows. -/
theorem c5_counterexample :
    ReadUnitVersions [3, 0, 0, 0, 5, 0, 7] = some [(4, 5)] ∧
    (4 : Nat) ≠ 0 + 4 + (4 + 4) := by decide

/-- Claim C5, as amended: for a version ≥ 5 unit whose unit-type byte is
outside 1–6, when the unit-type byte is readable and the payload length
fits, the scanner records the entry with header size 0 (the Go variable's
uninitialized value) and continues scanning. -/
theorem c5_unrecognized_unit_type (fuel off : Nat) (r : List (Nat × Nat))
    (data : List Nat) (hpre : unitPre data ≤ data.length)
    (hv5 : 5 ≤ (ReadDwarfLengthVersion data).version)
    (h3 : 3 ≤ (data.drop (unitPre data)).length)
    (hut : ¬(byteAt (data.drop (unitPre data)) 2 = 1 ∨
        byteAt (data.drop (unitPre data)) 2 = 2 ∨
        byteAt (data.drop (unitPre data)) 2 = 3 ∨
        byteAt (data.drop (unitPre data)) 2 = 4 ∨
        byteAt (data.drop (unitPre data)) 2 = 5 ∨
        byteAt (data.drop (unitPre data)) 2 = 6))
    (hlen : (ReadDwarfLengthVersion data).length ≤ (data.drop (unitPre data)).length) :
    readUnitVersionsLoop (fuel + 1) data off r =
      readUnitVersionsLoop fuel
        ((data.drop (unitPre data)).drop (ReadDwarfLengthVersion data).length)
        (off + unitPre data + (ReadDwarfLengthVersion data).length)
        (mapInsert r (off + unitPre data + 0)
          (ReadDwarfLengthVersion data).version) := by
  have hnv : ¬((ReadDwarfLengthVersion data).version = 2 ∨
      (ReadDwarfLengthVersion data).version = 3 ∨
      (ReadDwarfLengthVersion data).version = 4) := by omega
  have hstep := loop_step_record fuel off r data hpre hlen (fun _ => h3)
  rwa [show unitHeaderSize data = 0 from by
    unfold unitHeaderSize headerSizeOf
    rw [if_neg hnv, if_neg (by omega), if_neg (by omega), if_neg (by omega)]] at hstep

/-- Witness for C5 at the concrete unit `[3,0,0,0,5,0,7]`. -/
theorem c5_witness :
    readUnitVersionsLoop 3 [3, 0, 0, 0, 5, 0, 7] 0 [] =
      readUnitVersionsLoop 2 [] 7 (mapInsert [] (0 + 4 + 0) 5) :=
  c5_unrecognized_unit_type 2 0 [] [3, 0, 0, 0, 5, 0, 7]
    (by decide) (by decide) (by decide) (by decide) (by decide)

/-- Claim C6, counterexample: on the 6-byte input `[2,0,0,0,2,0]` the scan
returns the single key 11, which does not lie strictly within
`[0, |B|) = [0, 6)`. -/
theorem c6_counterexample :
    ReadUnitVersions [2, 0, 0, 0, 2, 0] = some [(11, 2)] ∧
    ¬(11 < ([2, 0, 0, 0, 2, 0] : List Nat).length) := by decide

/-- Claim C6, as amended: every key of a map returned by
`ReadUnitVersions B` lies within `[0, |B| + 28]`, 28 being the largest
header size (`4 + 8 + 8 + 8`); keys may equal or exceed `|B|` because the
header size is added without checking the remaining input. -/
theorem c6_keys_bound (data : List Nat) (m : List (Nat × Nat))
    (h : ReadUnitVersions data = some m) :
    ∀ p ∈ m, p.1 ≤ data.length + 28 := by
  intro p hp
  have := loop_keys_bound (data.length + 1) data 0 [] m h
    (fun q hq => absurd hq (List.not_mem_nil q)) p hp
  omega

/-- Witness for C6 on the concrete scan of `[2,0,0,0,2,0]`. -/
theorem c6_witness :
    ReadUnitVersions [2, 0, 0, 0, 2, 0] = some [(11, 2)] ∧
    ((11, 2) : Nat × Nat).1 ≤ ([2, 0, 0, 0, 2, 0] : List Nat).length + 28 :=
  ⟨by decide, c6_keys_bound [2, 0, 0, 0, 2, 0] [(11, 2)] (by decide) (11, 2) (by decide)⟩

/-- Reading back the bytes just written, in either byte order and at
widths 2, 4 and 8, recovers the written value. -/
theorem readUintRaw_encodeUint (o : ByteOrder) (w v : Nat)
    (hw : w = 2 ∨ w = 4 ∨ w = 8) (h : v < 256 ^ w) :
    ReadUintRaw (encodeUint o w v) o w = Except.ok v := by
  rcases hw with rfl | rfl | rfl <;>
    rw [ReadUintRaw] <;>
    simp only [encodeUint_length] <;>
    norm_num <;>
    rw [List.take_of_length_le (by rw [encodeUint_length]),
      decodeUint_encodeUint o _ v h]

/-- Claim C8: for every byte order `o`, width `p ∈ {4, 8}` and value
`v < 2 ^ (8 p)`, `WriteUint o p v` followed by `ReadUintRaw o p` over the
bytes just written succeeds and returns `v`. -/
theorem c8_roundtrip (o : ByteOrder) (p v : Nat) (hp : p = 4 ∨ p = 8)
    (hv : v < 2 ^ (8 * p)) : writeReadRoundTrip o p v = Except.ok v := by
  have h256 : v < 256 ^ p := by
    have h : (256 : Nat) ^ p = 2 ^ (8 * p) := by
      rw [pow_mul]; norm_num
    omega
  rcases hp with rfl | rfl
  · show writeReadRoundTrip o 4 v = Except.ok v
    unfold writeReadRoundTrip WriteUint
    rw [if_pos rfl]
    exact readUintRaw_encodeUint o 4 v (by omega) h256
  · show writeReadRoundTrip o 8 v = Except.ok v
    unfold writeReadRoundTrip WriteUint
    rw [if_neg (by omega), if_pos rfl]
    exact readUintRaw_encodeUint o 8 v (by omega) h256

/-- Witness for C8: writing 7 on 4 little-endian bytes and reading it
back yields 7. -/
theorem c8_witness : writeReadRoundTrip ByteOrder.littleEndian 4 7 = Except.ok 7 :=
  c8_roundtrip ByteOrder.littleEndian 4 7 (Or.inl rfl) (by norm_num)

/-- Claim C9: for a string `s` with no zero byte, reading `s ++ [0]`
returns `s` without error, excludes the terminator and leaves the
position past it (remainder `[]`); reading a buffer with no zero byte at
all fails with the EOF error. -/
theorem c9_string_roundtrip (s : List Nat) (hs : ∀ b ∈ s, b ≠ 0) :
    ReadString (s ++ [0]) = Except.ok (s, []) ∧
    ReadString s = Except.error "EOF" := by
  constructor
  · unfold ReadString
    rw [show s ++ [0] = s ++ 0 :: [] from rfl, readStringAux_terminated s [] hs]
  · unfold ReadString
    rw [readStringAux_unterminated s hs]

/-- Witness for C9 at the concrete string `[72, 105]`. -/
theorem c9_witness :
    ReadString [72, 105, 0] = Except.ok ([72, 105], []) ∧
    ReadString [72, 105] = Except.error "EOF" :=
  c9_string_roundtrip [72, 105] (by decide)

/-- Claim C10: a unit whose decoded version is not 2, 3 or 4 — versions 0
and 1 included — takes the DWARF 5 branch: at least 3 bytes must remain
after the length field (fewer crash the scan at the unit-type read), the
unit-type byte is read at index 2 of the remaining data and the header
size comes from the DWARF 5 unit-type table. -/
theorem c10_low_versions_take_dwarf5_branch (fuel off : Nat)
    (r : List (Nat × Nat)) (data : List Nat)
    (hpre : unitPre data ≤ data.length)
    (hv : ¬((ReadDwarfLengthVersion data).version = 2 ∨
        (ReadDwarfLengthVersion data).version = 3 ∨
        (ReadDwarfLengthVersion data).version = 4)) :
    ((data.drop (unitPre data)).length < 3 →
      readUnitVersionsLoop (fuel + 1) data off r = none) ∧
    (3 ≤ (data.drop (unitPre data)).length →
      (ReadDwarfLengthVersion data).length ≤ (data.drop (unitPre data)).length →
      readUnitVersionsLoop (fuel + 1) data off r =
        readUnitVersionsLoop fuel
          ((data.drop (unitPre data)).drop (ReadDwarfLengthVersion data).length)
          (off + unitPre data + (ReadDwarfLengthVersion data).length)
          (mapInsert r
            (off + unitPre data +
              headerSizeOf (ReadDwarfLengthVersion data).version
                (byteAt (data.drop (unitPre data)) 2) (unitSecoffsz data))
            (ReadDwarfLengthVersion data).version)) := by
  constructor
  · intro h3
    exact loop_step_crash fuel off r data hpre hv h3
  · intro h3 hlen
    have hstep := loop_step_record fuel off r data hpre hlen (fun _ => h3)
    unfold unitHeaderSize at hstep
    exact hstep

/-- Witness for C10: on `[0,0,0,0,0,0]` the degenerate version 0 takes the
DWARF 5 branch with only 2 bytes after the length field, so the scan
crashes at the unit-type read. -/
theorem c10_witness : readUnitVersionsLoop 7 [0, 0, 0, 0, 0, 0] 0 [] = none :=
  (c10_low_versions_take_dwarf5_branch 6 0 [] [0, 0, 0, 0, 0, 0]
    (by decide) (by decide)).1 (by decide)

end Dwarf
